import Mathlib

/-!
Verification of the codemd directory scanner (`src/codemd/scanner.py`).

The program is embedded shallowly:

* Paths are represented as lists of segment strings (an absolute path
  `/a/b/c.py` becomes `["a", "b", "c.py"]`); the Python string form of a
  path is recovered by joining the segments with `/`.
* The in-memory state of a `CodeScanner` object is the structure
  `CodeScanner`; methods become pure functions, and the single mutation
  performed by `scan_directory` (assigning `self.base_dir`) is reflected
  by returning an updated scanner value.
* Filesystem interaction is made explicit: reading a text file becomes a
  function `List String → Option String` (`none` models a missing or
  unreadable file), directory listings become explicit lists, and the
  recursive `rglob` enumeration becomes a list-valued parameter so that
  enumeration-order properties can be stated.
* The gitignore pattern matching is delegated by the source to the
  third-party `pathspec` library, whose code is not part of this
  repository; the matcher is therefore modelled from the specification
  (see the `Modelled from the spec:` doc comments below).

String primitives used by the model are implemented directly on the
character lists underlying `String`, so every definition evaluates by
kernel reduction.
-/

namespace Codemd

/-- Character-list form of "does `pre` occur at the start". -/
def strStartsWith (s pre : String) : Bool :=
  pre.data.isPrefixOf s.data

/-- Python `str.lstrip('.')`: remove every leading `.` character. -/
def lstripDots (s : String) : String :=
  ⟨s.data.dropWhile (fun c => c = '.')⟩

/-- Index of the last `.` in a character list (Python `str.rfind('.')`),
`none` when there is no dot. -/
def rfindDot : List Char → Option Nat
  | [] => none
  | c :: cs =>
    match rfindDot cs with
    | some i => some (i + 1)
    | none => if c = '.' then some 0 else none

/-- Python `PurePath.suffix` of a file name: the substring starting at the
last `.`, but only when that dot is neither the first nor the last
character of the name; otherwise the empty string. -/
def pySuffix (name : String) : String :=
  match rfindDot name.data with
  | some i => if 0 < i ∧ i + 1 < name.data.length then ⟨name.data.drop i⟩ else ""
  | none => ""

/-- Final segment of a path (Python `PurePath.name`). -/
def lastName (p : List String) : String :=
  p.getLast?.getD ""

/-- The Python string form of a path: segments joined with `/`. -/
def pathStr (p : List String) : String :=
  ⟨List.intercalate ['/'] (p.map String.data)⟩

/-- Join output lines with newlines, as Python `"\n".join(...)`. -/
def joinLines (ls : List String) : String :=
  ⟨List.intercalate ['\n'] (ls.map String.data)⟩

/-- Python substring containment `pat in s`: `pat` occurs contiguously
inside `s`, i.e. it is a prefix of some trailing run of `s`. -/
def containsSub (pat s : List Char) : Bool :=
  s.tails.any fun t => pat.isPrefixOf t

/-- Python `PurePath.relative_to`: drop the base prefix.  The source wraps
the call in `try/except ValueError` and falls back to the raw path when the
path is not under the base, so the fallback value is the path itself. -/
def relTo (p base : List String) : List String :=
  if base.isPrefixOf p then p.drop base.length else p

/-! ### The gitignore-style pattern matcher

Modelled from the spec: the source builds its matcher with
`pathspec.PathSpec.from_lines('gitwildmatch', patterns)`, and the `pathspec`
library is not part of this repository.  The definitions below follow
§4.1 of the specification: rule lines are compiled into `Rule` values
(negation `!`, directory-only trailing `/`, anchoring leading `/`, glob
segments with `*`, `?`, `[...]` and `**`), the verdict of a rule set on a
path is the verdict of the last matching rule (default: not ignored), and
a path is ignored when its own verdict says so or when some ancestor
directory is ignored (a negation cannot resurrect a file inside an
excluded directory). -/

/-- One token of a single glob segment. -/
inductive GTok where
  | lit (c : Char)
  | star
  | qmark
  | cls (ranges : List (Char × Char))
deriving DecidableEq, Repr

/-- One segment of a rule pattern: either the cross-directory `**` or an
ordinary glob. -/
inductive Seg where
  | dstar
  | glob (toks : List GTok)
deriving DecidableEq, Repr

/-- Scan the interior of a `[...]` character class: returns the ranges and
the characters following the closing `]`, or `none` when the class is
unterminated (in which case the `[` is treated as a literal). -/
def splitClass : List Char → List (Char × Char) → Option (List (Char × Char) × List Char)
  | [], _ => none
  | ']' :: cs, acc => some (acc.reverse, cs)
  | c :: '-' :: d :: cs, acc =>
    if d = ']' then some (((('-', '-') :: (c, c) :: acc)).reverse, cs)
    else splitClass cs ((c, d) :: acc)
  | c :: cs, acc => splitClass cs ((c, c) :: acc)

/-- Tokenize one glob segment; the fuel is an upper bound on the number of
steps, and every step consumes at least one character, so
`cs.length + 1` fuel always suffices. -/
def tokAux : Nat → List Char → List GTok
  | 0, _ => []
  | _ + 1, [] => []
  | fuel + 1, c :: cs =>
    if c = '*' then .star :: tokAux fuel cs
    else if c = '?' then .qmark :: tokAux fuel cs
    else if c = '[' then
      match splitClass cs [] with
      | some (ranges, rest) => .cls ranges :: tokAux fuel rest
      | none => .lit '[' :: tokAux fuel cs
    else .lit c :: tokAux fuel cs

/-- Tokenize a glob segment. -/
def toksOf (cs : List Char) : List GTok :=
  tokAux (cs.length + 1) cs

/-- Membership in a character class. -/
def inClass (ranges : List (Char × Char)) (c : Char) : Bool :=
  ranges.any fun r => r.1 ≤ c ∧ c ≤ r.2

/-- Match one glob segment against one path segment: `*` matches any run
of characters (no separators occur inside a segment), `?` one character,
classes by membership, literals by equality. -/
def matchGlob : List GTok → List Char → Bool
  | [], s => s.isEmpty
  | .star :: rs, s => s.tails.any fun t => matchGlob rs t
  | .qmark :: rs, s =>
    match s with
    | [] => false
    | _ :: s1 => matchGlob rs s1
  | .cls ranges :: rs, s =>
    match s with
    | [] => false
    | c :: s1 => inClass ranges c && matchGlob rs s1
  | .lit c :: rs, s =>
    match s with
    | [] => false
    | d :: s1 => (d = c) && matchGlob rs s1

/-- Match a sequence of rule segments against a sequence of path
segments; a `**` segment absorbs zero or more whole path segments. -/
def matchSegs : List Seg → List String → Bool
  | [], ps => ps.isEmpty
  | .dstar :: rest, ps => ps.tails.any fun t => matchSegs rest t
  | .glob g :: rest, ps =>
    match ps with
    | [] => false
    | q :: qs => matchGlob g q.data && matchSegs rest qs

/-- A compiled ignore rule. -/
structure Rule where
  neg : Bool
  dirOnly : Bool
  anchored : Bool
  segs : List Seg
deriving DecidableEq, Repr

/-- Whether a single rule matches a path.  An anchored rule must match the
whole path starting at the root; an unanchored rule may match at any
depth, i.e. against any non-empty trailing run of segments.  A
directory-only rule matches only directory paths. -/
def ruleMatches (r : Rule) (p : List String) (isDir : Bool) : Bool :=
  (!r.dirOnly || isDir) &&
  (if r.anchored then matchSegs r.segs p
   else p.tails.any fun t => !t.isEmpty && matchSegs r.segs t)

/-- Verdict of the last matching rule: `some true` = ignore,
`some false` = re-include (negation), `none` = no rule matched. -/
def lastVerdict (rules : List Rule) (p : List String) (isDir : Bool) : Option Bool :=
  rules.foldl (fun acc r => if ruleMatches r p isDir then some (!r.neg) else acc) none

/-- Modelled from the spec: a path is ignored when the last-match verdict
of the path itself says so, or when any ancestor directory's last-match
verdict says so — so a negated rule cannot re-include a file whose
containing directory is excluded.  `p.take (k+1)` for `k+1 < p.length`
ranges over the ancestor directories of `p`, and `p.take p.length = p`
itself is judged with the given `isDir` flag. -/
def matchPath (rules : List Rule) (p : List String) (isDir : Bool) : Bool :=
  (List.range p.length).any fun k =>
    (lastVerdict rules (p.take (k + 1))
      (if k + 1 = p.length then isDir else true)).getD false

/-- Split a character list at `/` separators. -/
def splitSlash : List Char → List Char → List (List Char)
  | [], acc => [acc.reverse]
  | '/' :: cs, acc => acc.reverse :: splitSlash cs []
  | c :: cs, acc => splitSlash cs (c :: acc)

/-- Compile one raw segment. -/
def segOf (cs : List Char) : Seg :=
  if cs = ['*', '*'] then .dstar else .glob (toksOf cs)

/-- Parse one rule line: blank lines and `#` comments are dropped, a
leading `!` marks negation, a trailing `/` marks directory-only, a
leading `/` anchors the rule at the root. -/
def parseRule (line : String) : Option Rule :=
  let cs := line.data
  if cs = [] then none
  else if cs.head? = some '#' then none
  else
    let x1 := match cs with
      | '!' :: rest => (true, rest)
      | _ => (false, cs)
    let x2 := if x1.2.getLast? = some '/' then (true, x1.2.dropLast) else (false, x1.2)
    let x3 := match x2.2 with
      | '/' :: rest => (true, rest)
      | _ => (false, x2.2)
    if x3.2 = [] then none
    else some { neg := x1.1, dirOnly := x2.1, anchored := x3.1,
                segs := (splitSlash x3.2 []).map segOf }

/-- Compile a list of rule lines into the ordered rule sequence. -/
def compileLines (lines : List String) : List Rule :=
  lines.filterMap parseRule

/-! ### The scanner state and `should_include_file` -/

/-- The fields of a `CodeScanner` object.  `gitspec` holds the compiled
rule sequence (`None` in Python ↦ `none`); `base_dir` is set by
`scan_directory` before any matching takes place. -/
structure CodeScanner where
  extensions : List String
  exclude_patterns : List String
  exclude_extensions : List String
  no_structure : Bool
  gitspec : Option (List Rule)
  base_dir : Option (List String)
deriving DecidableEq

/-- The default extension allow-list from `CodeScanner.__init__`. -/
def defaultExtensions : List String :=
  ["py", "java", "js", "cpp", "c", "h", "hpp"]

/-- `CodeScanner.should_include_file`.  Conditions in source order:
gitignore match on the path relative to `base_dir` (falling back to the
raw path when the path is not under `base_dir`, and skipped entirely when
either `gitspec` or `base_dir` is unset), then the extension allow-list
(`file_path.suffix.lstrip('.')`), then the exclude substrings
(`pattern in str(file_path)`), then the exclude extension suffixes
(`str(file_path).endswith(ext_pattern)`). -/
def should_include_file (s : CodeScanner) (p : List String) : Bool :=
  (match s.gitspec, s.base_dir with
   | some rules, some b => !matchPath rules (relTo p b) false
   | _, _ => true) &&
  s.extensions.contains (lstripDots (pySuffix (lastName p))) &&
  s.exclude_patterns.all (fun pat => !containsSub pat.data (pathStr p).data) &&
  s.exclude_extensions.all (fun ext => !ext.data.isSuffixOf (pathStr p).data)

/-! ### `load_gitignore` and `__init__`

File reading is modelled by a function `readLines : String → Option (List
String)` from absolute path strings to the list of lines of the file
(`none` when the file does not exist or cannot be read; the source treats
an unreadable file the same as a missing one — it contributes no
patterns).  A relative path opened by Python is resolved against the
process working directory `cwd`; in particular the default branch opens
`Path('.gitignore')`, i.e. `cwd ++ "/.gitignore"`. -/

/-- Resolve a path string the way `open` does: relative paths are
interpreted against the current working directory. -/
def resolveAgainst (cwd p : String) : String :=
  if strStartsWith p "/" then p else cwd ++ "/" ++ p

/-- `CodeScanner.load_gitignore`: with a non-empty explicit file list,
concatenate the lines of every readable file; otherwise (also for an
explicitly empty list, which is falsy in Python) fall back to
`.gitignore` in the current working directory.  The compiled spec is
created only when at least one pattern line was collected. -/
def load_gitignore (readLines : String → Option (List String)) (cwd : String)
    (gitignore_files : Option (List String)) : Option (List Rule) :=
  let patterns :=
    match gitignore_files with
    | some (g :: gs) =>
      (g :: gs).flatMap fun gf => (readLines (resolveAgainst cwd gf)).getD []
    | _ => (readLines (cwd ++ "/.gitignore")).getD []
  if patterns = [] then none else some (compileLines patterns)

/-- Python truthiness of an optional collection argument:
`arg or default`. -/
def pyOrList (x : Option (List String)) (d : List String) : List String :=
  match x with
  | some (a :: as_) => a :: as_
  | _ => d

/-- `CodeScanner.__init__`. -/
def initScanner (extensions exclude_patterns exclude_extensions : Option (List String))
    (gitignore_files : Option (List String)) (ignore_gitignore : Bool)
    (readLines : String → Option (List String)) (cwd : String) : CodeScanner :=
  { extensions := pyOrList extensions defaultExtensions
    exclude_patterns := pyOrList exclude_patterns []
    exclude_extensions := pyOrList exclude_extensions []
    no_structure := false
    gitspec := if ignore_gitignore then none else load_gitignore readLines cwd gitignore_files
    base_dir := none }

/-! ### The tree renderer `generate_structure`

A directory tree is the inductive `FSTree`; `generate_structure` receives
the list of children of the directory being listed together with that
directory's absolute path `cur`.  The source accumulates a list of lines
and joins them with newlines once at the end (`'\n'.join`); the model
works with the line list directly (every produced line is non-empty, so
the empty string corresponds exactly to the empty line list). -/

/-- A filesystem subtree: a regular file with its content, or a directory
with its children. -/
inductive FSTree where
  | file (name : String) (content : String)
  | dir (name : String) (children : List FSTree)

/-- Name of a tree entry. -/
def treeName : FSTree → String
  | .file name _ => name
  | .dir name _ => name

/-- Ordering used by `sorted(path.iterdir())`: entries of one directory
share their parent, so path order is name order. -/
def treeNameLe (a b : FSTree) : Prop :=
  treeName a ≤ treeName b

instance : DecidableRel treeNameLe :=
  fun a b => inferInstanceAs (Decidable (treeName a ≤ treeName b))

/-- The gitignore skip test of `generate_structure`: relative path to
`base_dir` with fallback to the raw path on `ValueError`.  (When
`base_dir` is unset the Python code would raise; that state is unreachable
because `scan_directory` assigns `base_dir` first — the model falls back
to the raw path.) -/
def gitSkips (s : CodeScanner) (p : List String) (isDir : Bool) : Bool :=
  match s.gitspec with
  | none => false
  | some rules =>
    matchPath rules (match s.base_dir with | some b => relTo p b | none => p) isDir

/-- Markdown escaping of an entry name:
`name.replace('*', '\\*').replace('_', '\\_')`.  Both patterns are single
characters and the second pass cannot see text produced by the first, so
the sequential replacement equals this single character-wise pass. -/
def escapeName (s : String) : String :=
  ⟨s.data.flatMap fun c =>
    if c = '*' then ['\\', '*'] else if c = '_' then ['\\', '_'] else [c]⟩

/-- Two spaces per depth level. -/
def indentOf (depth : Nat) : String :=
  ⟨List.replicate (2 * depth) ' '⟩

/-- Lines contributed to the listing by one directory entry: hidden
entries are skipped, then gitignore-matched entries; a directory is
printed (header line followed by the indented sub-listing) only when its
recursive listing is non-empty; a file is printed when
`should_include_file` accepts it. -/
def childLines (s : CodeScanner) (cur : List String) (depth : Nat) : FSTree → List String
  | .file name _ =>
    if strStartsWith name "." then []
    else if gitSkips s (cur ++ [name]) false then []
    else if should_include_file s (cur ++ [name]) then
      [indentOf depth ++ "* " ++ escapeName name]
    else []
  | .dir name ch =>
    if strStartsWith name "." then []
    else if gitSkips s (cur ++ [name]) true then []
    else
      let sub := (ch.insertionSort treeNameLe).attach.flatMap
        fun c => childLines s (cur ++ [name]) (depth + 1) c.1
      if sub = [] then []
      else (indentOf depth ++ "* **" ++ escapeName name ++ "/**") :: sub
termination_by t => sizeOf t
decreasing_by
  obtain ⟨c, hc⟩ := c
  have h1 := (List.Perm.mem_iff (List.perm_insertionSort treeNameLe _)).mp hc
  have h2 := List.sizeOf_lt_of_mem h1
  simp
  omega

/-- `CodeScanner.generate_structure`: visit the entries of a directory in
sorted order and concatenate their contributions. -/
def generate_structure (s : CodeScanner) (cur : List String) (depth : Nat)
    (children : List FSTree) : List String :=
  (children.insertionSort treeNameLe).flatMap (childLines s cur depth)

/-- Specification-level visibility predicate: an entry survives the
filtered tree listing when it is not hidden, not gitignore-matched, and —
for a file — accepted by `should_include_file`, or — for a directory —
has at least one surviving descendant. -/
def treeVisible (s : CodeScanner) (cur : List String) : FSTree → Bool
  | .file name _ =>
    !strStartsWith name "." && !gitSkips s (cur ++ [name]) false &&
      should_include_file s (cur ++ [name])
  | .dir name ch =>
    !strStartsWith name "." && !gitSkips s (cur ++ [name]) true &&
      ch.attach.any fun c => treeVisible s (cur ++ [name]) c.1
termination_by t => sizeOf t
decreasing_by
  obtain ⟨c, hc⟩ := c
  have h2 := List.sizeOf_lt_of_mem hc
  simp
  omega

/-! ### Content aggregation: `scan_directory` -/

/-- One entry of a filesystem enumeration (`rglob("*")` / `glob("*")`):
its absolute path and whether it is a regular file. -/
structure Entry where
  path : List String
  isFile : Bool
deriving DecidableEq

/-- Sort order of `sorted(files)`: Python compares `Path` objects by
their string form. -/
def entryLe (a b : Entry) : Prop :=
  pathStr a.path ≤ pathStr b.path

instance : DecidableRel entryLe :=
  fun a b => inferInstanceAs (Decidable (pathStr a.path ≤ pathStr b.path))

instance : IsTotal Entry entryLe :=
  ⟨fun a b => le_total (pathStr a.path) (pathStr b.path)⟩

instance : IsTrans Entry entryLe :=
  ⟨fun _ _ _ hab hbc => le_trans hab hbc⟩

/-- The observable filesystem: existence of the scan root, the subtree of
the root (for the structure pass), the `rglob("*")` and `glob("*")`
enumerations (arbitrary order), and file reading. -/
structure FS where
  rootExists : Bool
  tree : List FSTree
  enumR : List Entry
  enumF : List Entry
  read : List String → Option String

/-- The filtered and sorted candidate list of `scan_directory`:
`sorted([f for f in files if f.is_file() and self.should_include_file(f)])`. -/
def codeFiles (s : CodeScanner) (files : List Entry) : List Entry :=
  (files.filter fun e => e.isFile && should_include_file s e.path).insertionSort entryLe

/-- One emitted file block: heading path (relative to the scanned
directory), fence language tag, and the file content verbatim. -/
structure Block where
  rel : List String
  tag : String
  content : String
deriving DecidableEq

/-- The five output lines of one block. -/
def blockLines (b : Block) : List String :=
  ["# " ++ pathStr b.rel, "```" ++ b.tag, b.content, "```", ""]

/-- The sequence of blocks emitted by the aggregation loop: each candidate
is read, a read failure (`none`) skips the file, a success emits the block
with the content unchanged. -/
def scanBlocks (s : CodeScanner) (readF : List String → Option String)
    (dirp : List String) (files : List Entry) : List Block :=
  (codeFiles s files).filterMap fun e =>
    (readF e.path).map fun content =>
      { rel := relTo e.path dirp
        tag := lstripDots (pySuffix (lastName e.path))
        content := content }

/-- `CodeScanner.scan_directory`: raises `ValueError` for a nonexistent
root (before reading anything and before assigning `base_dir`), otherwise
stores the resolved root in `base_dir`, optionally renders the structure
header, then emits the sorted file blocks.  The returned scanner value
captures the state of `self` after the call. -/
def scan_directory (s : CodeScanner) (fs : FS) (directory : List String)
    (recursive : Bool) : CodeScanner × Except String (List String) :=
  if fs.rootExists = false then
    (s, Except.error ("Directory " ++ pathStr directory ++ " does not exist"))
  else
    let s1 := { s with base_dir := some directory }
    let structPart :=
      if s1.no_structure = false then
        ["# Repository Structure"] ++ generate_structure s1 directory 0 fs.tree ++ [""]
      else []
    let files := if recursive then fs.enumR else fs.enumF
    (s1, Except.ok (structPart ++ (scanBlocks s1 fs.read directory files).flatMap blockLines))

/-- The final merged string (`"\n".join(merged_content)`). -/
def scan_text (s : CodeScanner) (fs : FS) (directory : List String)
    (recursive : Bool) : Except String String :=
  (scan_directory s fs directory recursive).2.map joinLines

/-! ### Concrete data used by individual claims -/

/-- The rule set of the C1 scenario: `*.py`, then the negation
`!important.py`, plus the separate rule excluding `sub/`. -/
def c1Rules : List Rule :=
  compileLines ["*.py", "!important.py", "sub/"]

/-- Claim C3's literal reading of "extension": the text after the last
`.` of the final name component (empty when the name has no dot). -/
def extensionClaim (name : String) : String :=
  match rfindDot name.data with
  | some i => ⟨name.data.drop (i + 1)⟩
  | none => ""

/-- The inclusion test exactly as claim C3 words it, for comparison with
`should_include_file`: identical except that the extension is
`extensionClaim` instead of Python's `Path.suffix`. -/
def shouldIncludeClaim (s : CodeScanner) (p : List String) : Bool :=
  (match s.gitspec, s.base_dir with
   | some rules, some b => !matchPath rules (relTo p b) false
   | _, _ => true) &&
  s.extensions.contains (extensionClaim (lastName p)) &&
  s.exclude_patterns.all (fun pat => !containsSub pat.data (pathStr p).data) &&
  s.exclude_extensions.all (fun ext => !ext.data.isSuffixOf (pathStr p).data)

/-- Discovery as claim C2 words it: the default ignore file is the
`.gitignore` at the root of the scanned directory. -/
def rootDiscovery (readLines : String → Option (List String)) (root : String) :
    Option (List Rule) :=
  let patterns := (readLines (root ++ "/.gitignore")).getD []
  if patterns = [] then none else some (compileLines patterns)

/-- Concrete filesystem for the C2 counterexample: the scanned root
`/proj` contains a `.gitignore` with one pattern, the process working
directory `/home` contains none. -/
def cexReadC2 : String → Option (List String) :=
  fun p => if p = "/proj/.gitignore" then some ["*.py"] else none

/-- Concrete scanner for the C3 counterexample: `bashrc` is an allowed
extension, nothing else is configured. -/
def cexScannerC3 : CodeScanner :=
  { extensions := ["bashrc"], exclude_patterns := [], exclude_extensions := []
    no_structure := false, gitspec := none, base_dir := none }

/-- Rule set used by the witness fixtures. -/
def wRules : List Rule :=
  compileLines ["*.txt"]

/-- Witness scanner: a fully configured scanner mid-scan (root `r`). -/
def wScanner : CodeScanner :=
  { extensions := ["py"], exclude_patterns := ["test_"], exclude_extensions := ["spec.js"]
    no_structure := false, gitspec := some wRules, base_dir := some ["r"] }

/-- Witness enumeration entries under the root `r`. -/
def wEntryA : Entry := ⟨["r", "a.py"], true⟩

/-- Second witness entry, sorting after `wEntryA`. -/
def wEntryB : Entry := ⟨["r", "b.py"], true⟩

/-- A hidden (dot-named) file entry that passes the filter policy. -/
def wEntryH : Entry := ⟨["r", ".hid.py"], true⟩

/-- Witness file contents. -/
def wRead : List String → Option String :=
  fun p =>
    if p = ["r", "a.py"] then some "x=1"
    else if p = ["r", "b.py"] then some "y=2"
    else if p = ["r", ".hid.py"] then some "h"
    else none

/-- A filesystem whose scan root does not exist. -/
def fsMissing : FS :=
  ⟨false, [], [], [], fun _ => none⟩

end Codemd

namespace Codemd

/-! ### Helper lemmas -/

theorem rfindDot_eq_none {cs : List Char} (h : '.' ∉ cs) : rfindDot cs = none := by
  induction cs with
  | nil => rfl
  | cons c cs ih =>
    have hc : ¬c = '.' := fun hc => h (hc ▸ List.mem_cons_self c cs)
    have ht : '.' ∉ cs := fun ht => h (List.mem_cons_of_mem c ht)
    simp [rfindDot, ih ht, hc]

theorem lastName_concat (cur : List String) (name : String) :
    lastName (cur ++ [name]) = name := by
  simp [lastName]

theorem pySuffix_of_dotless {name : String} (h : '.' ∉ name.data) :
    pySuffix name = "" := by
  simp [pySuffix, rfindDot_eq_none h]

theorem mem_codeFiles {s : CodeScanner} {files : List Entry} {e : Entry}
    (h : e ∈ codeFiles s files) :
    e ∈ files ∧ e.isFile = true ∧ should_include_file s e.path = true := by
  have h1 : e ∈ files.filter fun e => e.isFile && should_include_file s e.path :=
    (List.Perm.mem_iff (List.perm_insertionSort entryLe _)).mp h
  have h2 := List.mem_filter.mp h1
  have h3 := h2.2
  simp only [Bool.and_eq_true] at h3
  exact ⟨h2.1, h3.1, h3.2⟩

theorem relTo_of_pref {dirp p : List String} (h : dirp.isPrefixOf p = true) :
    relTo p dirp = p.drop dirp.length := by
  simp [relTo, h]

theorem prefix_drop_inj {dirp a b : List String}
    (ha : dirp.isPrefixOf a = true) (hb : dirp.isPrefixOf b = true)
    (h : a.drop dirp.length = b.drop dirp.length) : a = b := by
  obtain ⟨ta, rfl⟩ := List.isPrefixOf_iff_prefix.mp ha
  obtain ⟨tb, rfl⟩ := List.isPrefixOf_iff_prefix.mp hb
  rw [List.drop_left, List.drop_left] at h
  rw [h]

theorem countP_eq_count_of_agree {α : Type} [DecidableEq α] {p : α → Bool} {l : List α}
    {e : α} (h : ∀ x ∈ l, p x = (x == e)) : l.countP p = l.count e := by
  induction l with
  | nil => rfl
  | cons a as ih =>
    have ha := h a (List.mem_cons_self _ _)
    rw [List.countP_cons, List.count_cons,
      ih (fun x hx => h x (List.mem_cons_of_mem _ hx)), ha]

/-- Core counting fact shared by C4 and C7: an enumerated, filter-passing,
readable file with no duplicate paths in the enumeration and every entry
under the scan root produces exactly one block, carrying its content
verbatim. -/
theorem scanBlocks_count (s : CodeScanner) (readF : List String → Option String)
    (dirp : List String) (files : List Entry) (e : Entry) (content : String)
    (hmem : e ∈ files) (hfile : e.isFile = true)
    (hinc : should_include_file s e.path = true)
    (hread : readF e.path = some content)
    (hnd : (files.map Entry.path).Nodup)
    (hund : ∀ f ∈ files, dirp.isPrefixOf f.path = true) :
    (scanBlocks s readF dirp files).count
      ⟨relTo e.path dirp, lstripDots (pySuffix (lastName e.path)), content⟩ = 1 := by
  simp only [scanBlocks, codeFiles]
  rw [List.count_filterMap, (List.perm_insertionSort entryLe _).countP_eq,
    List.countP_filter]
  rw [countP_eq_count_of_agree (e := e) ?_]
  · exact List.count_eq_one_of_mem (List.Nodup.of_map Entry.path hnd) hmem
  · intro x hx
    by_cases hxe : x = e
    · subst hxe
      simp [hread, hfile, hinc]
    · have hne : (x == e) = false := by simp [hxe]
      rw [hne]
      cases hrx : readF x.path with
      | none => simp [hrx]
      | some c =>
        have hblock : ¬({ rel := relTo x.path dirp
                          tag := lstripDots (pySuffix (lastName x.path))
                          content := c } : Block) =
            { rel := relTo e.path dirp
              tag := lstripDots (pySuffix (lastName e.path))
              content := content } := by
          intro hB
          apply hxe
          have hrel : relTo x.path dirp = relTo e.path dirp := congrArg Block.rel hB
          rw [relTo_of_pref (hund x hx), relTo_of_pref (hund e hmem)] at hrel
          exact List.inj_on_of_nodup_map hnd hx hmem
            (prefix_drop_inj (hund x hx) (hund e hmem) hrel)
        simp [hrx, hblock]

/-! ### The claims -/

/-- C8: a nonexistent root makes `scan_directory` fail with the
configuration error, producing no output at all and leaving the scanner
untouched (the error is raised before `base_dir` is assigned and before
any traversal). -/
theorem c8_missing_root (s : CodeScanner) (fs : FS) (d : List String) (r : Bool)
    (h : fs.rootExists = false) :
    scan_directory s fs d r =
      (s, Except.error ("Directory " ++ pathStr d ++ " does not exist")) := by
  simp [scan_directory, h]

/-- C8 witness. -/
theorem c8_missing_root_witness :
    scan_directory wScanner fsMissing ["gone"] true =
      (wScanner, Except.error ("Directory " ++ pathStr ["gone"] ++ " does not exist")) :=
  c8_missing_root wScanner fsMissing ["gone"] true rfl

/-- C10: a scan mutates only `base_dir`: every other field of the scanner
is unchanged whether the scan succeeds or raises. -/
theorem c10_frame (s : CodeScanner) (fs : FS) (d : List String) (r : Bool) :
    (scan_directory s fs d r).1.extensions = s.extensions ∧
    (scan_directory s fs d r).1.exclude_patterns = s.exclude_patterns ∧
    (scan_directory s fs d r).1.exclude_extensions = s.exclude_extensions ∧
    (scan_directory s fs d r).1.no_structure = s.no_structure ∧
    (scan_directory s fs d r).1.gitspec = s.gitspec := by
  by_cases h : fs.rootExists = false <;> simp [scan_directory, h]

/-- C2 counterexample: the scanned root `/proj` holds a non-empty
`.gitignore`, yet a scanner constructed with working directory `/home`
(no explicit sources, discovery enabled) loads no rules — the code reads
`.gitignore` from the current working directory, not from the scanned
root as the claim states. -/
theorem c2_counterexample :
    (initScanner none none none none false cexReadC2 "/home").gitspec = none ∧
    cexReadC2 ("/proj" ++ "/.gitignore") = some ["*.py"] ∧
    rootDiscovery cexReadC2 "/proj" = some (compileLines ["*.py"]) ∧
    compileLines ["*.py"] ≠ [] :=
  ⟨by decide, by decide, by decide, by decide⟩

/-- C2 (amended): with no explicit sources (None or an explicitly empty
list) and discovery enabled, the matcher is built from the `.gitignore`
of the process working directory; when that file is missing, unreadable
or empty, no rules are loaded. -/
theorem c2_cwd_discovery (readLines : String → Option (List String)) (cwd : String)
    (e1 e2 e3 : Option (List String)) (gfs : Option (List String))
    (h : gfs = none ∨ gfs = some []) :
    (initScanner e1 e2 e3 gfs false readLines cwd).gitspec =
      (if (readLines (cwd ++ "/.gitignore")).getD [] = [] then none
       else some (compileLines ((readLines (cwd ++ "/.gitignore")).getD []))) := by
  rcases h with h | h <;> subst h <;> simp [initScanner, load_gitignore]

/-- C2 witness. -/
theorem c2_cwd_discovery_witness :
    (initScanner none none none none false cexReadC2 "/home").gitspec =
      (if (cexReadC2 ("/home" ++ "/.gitignore")).getD [] = [] then none
       else some (compileLines ((cexReadC2 ("/home" ++ "/.gitignore")).getD []))) :=
  c2_cwd_discovery cexReadC2 "/home" none none none none (Or.inl rfl)

/-- C3 counterexample: for the file `.bashrc` with allowed extensions
`{bashrc}`, every condition of the claim holds (no matcher configured, the
text after the last dot is `bashrc`, no exclude substring, no exclude
suffix), yet `should_include_file` returns false: Python's `Path.suffix`
treats a leading dot as not introducing an extension. -/
theorem c3_counterexample :
    should_include_file cexScannerC3 [".bashrc"] = false ∧
    shouldIncludeClaim cexScannerC3 [".bashrc"] = true :=
  ⟨by decide, by decide⟩

/-- C3 (amended): with a matcher configured and the path under the root,
`should_include_file` is true iff no ignore rule matches the relative
path, the extension — Python's `Path.suffix` without its dot, which is
empty when the only dot of the name is its first or last character — is
allowed, no exclude substring occurs in the path string, and no exclude
suffix ends it; the checks short-circuit in this order. -/
theorem c3_filter_order (s : CodeScanner) (p : List String) (rules : List Rule)
    (b : List String) (hg : s.gitspec = some rules) (hb : s.base_dir = some b) :
    should_include_file s p = true ↔
      (matchPath rules (relTo p b) false = false ∧
       lstripDots (pySuffix (lastName p)) ∈ s.extensions ∧
       (∀ pat ∈ s.exclude_patterns, containsSub pat.data (pathStr p).data = false) ∧
       (∀ ext ∈ s.exclude_extensions, ext.data.isSuffixOf (pathStr p).data = false)) := by
  simp only [should_include_file, hg, hb, Bool.and_eq_true, List.all_eq_true,
    Bool.not_eq_true', List.elem_iff]
  tauto

/-- C3 witness. -/
theorem c3_filter_order_witness :
    should_include_file wScanner ["r", "a.py"] = true ↔
      (matchPath wRules (relTo ["r", "a.py"] ["r"]) false = false ∧
       lstripDots (pySuffix (lastName ["r", "a.py"])) ∈ wScanner.extensions ∧
       (∀ pat ∈ wScanner.exclude_patterns,
          containsSub pat.data (pathStr ["r", "a.py"]).data = false) ∧
       (∀ ext ∈ wScanner.exclude_extensions,
          ext.data.isSuffixOf (pathStr ["r", "a.py"]).data = false)) :=
  c3_filter_order wScanner ["r", "a.py"] wRules ["r"] rfl rfl

/-- C9: a file whose final name component contains no dot has the empty
extension, so whenever the empty string is not an allowed extension the
file is rejected by `should_include_file`, never enters the aggregation
candidate list, and contributes no tree line; the default extension set
does not contain the empty string. -/
theorem c9_extensionless (s : CodeScanner) (p : List String)
    (hext : "" ∉ s.extensions) (hdot : '.' ∉ (lastName p).data) :
    should_include_file s p = false ∧
    (∀ files : List Entry, ∀ e ∈ codeFiles s files, e.path ≠ p) ∧
    (∀ cur depth (name content : String), '.' ∉ name.data →
       childLines s cur depth (.file name content) = []) ∧
    "" ∉ defaultExtensions := by
  have hmain : ∀ q : List String, '.' ∉ (lastName q).data →
      should_include_file s q = false := by
    intro q hq
    have h1 : lstripDots (pySuffix (lastName q)) = "" := by
      rw [pySuffix_of_dotless hq]; rfl
    simp [should_include_file, h1, hext]
  refine ⟨hmain p hdot, ?_, ?_, by decide⟩
  · intro files e he heq
    have h3 := (mem_codeFiles he).2.2
    rw [heq, hmain p hdot] at h3
    exact Bool.false_ne_true h3
  · intro cur depth name content hname
    have hhid : strStartsWith name "." = false := by
      cases hn : name.data with
      | nil => simp [strStartsWith, hn, List.isPrefixOf]
      | cons c cs =>
        have h4 : ¬ ('.' = c) := fun hc => hname (by rw [hn, ← hc]; exact List.mem_cons_self _ _)
        simp [strStartsWith, hn, List.isPrefixOf, h4]
    have hlast : '.' ∉ (lastName (cur ++ [name])).data := by
      rw [lastName_concat]; exact hname
    by_cases hg : gitSkips s (cur ++ [name]) false = true
    · simp [childLines, hhid, hg]
    · simp [childLines, hhid, hg, hmain _ hlast]

theorem attach_flatMap_eq {α β : Type} (l : List α) (f : α → List β) :
    (l.attach.flatMap fun x => f x.1) = l.flatMap f := by
  conv_rhs => rw [← List.attach_map_subtype_val l]
  rw [List.flatMap_map]

theorem attach_any_eq {α : Type} (l : List α) (f : α → Bool) :
    (l.attach.any fun x => f x.1) = l.any f := by
  rw [Bool.eq_iff_iff, List.any_eq_true, List.any_eq_true]
  constructor
  · rintro ⟨x, _, hfx⟩
    exact ⟨x.1, x.2, hfx⟩
  · rintro ⟨x, hx, hfx⟩
    exact ⟨⟨x, hx⟩, List.mem_attach l _, hfx⟩

theorem childLines_dir (s : CodeScanner) (cur : List String) (depth : Nat)
    (name : String) (ch : List FSTree) :
    childLines s cur depth (.dir name ch) =
      if strStartsWith name "." then []
      else if gitSkips s (cur ++ [name]) true then []
      else if generate_structure s (cur ++ [name]) (depth + 1) ch = [] then []
      else (indentOf depth ++ "* **" ++ escapeName name ++ "/**") ::
        generate_structure s (cur ++ [name]) (depth + 1) ch := by
  rw [childLines, generate_structure, attach_flatMap_eq]

theorem treeVisible_dir_eq (s : CodeScanner) (cur : List String)
    (name : String) (ch : List FSTree) :
    treeVisible s cur (.dir name ch) =
      (!strStartsWith name "." && !gitSkips s (cur ++ [name]) true &&
        ch.any fun c => treeVisible s (cur ++ [name]) c) := by
  rw [treeVisible, attach_any_eq]

theorem childLines_eq_nil_iff (s : CodeScanner) (n : Nat) :
    ∀ (t : FSTree), sizeOf t ≤ n → ∀ (cur : List String) (depth : Nat),
      (childLines s cur depth t = [] ↔ treeVisible s cur t = false) := by
  induction n with
  | zero =>
    intro t ht
    exfalso
    cases t <;> simp at ht
  | succ n ih =>
    intro t ht cur depth
    cases t with
    | file name content =>
      by_cases h1 : strStartsWith name "." = true <;>
        by_cases h2 : gitSkips s (cur ++ [name]) false = true <;>
          by_cases h3 : should_include_file s (cur ++ [name]) = true <;>
            simp [childLines, treeVisible, h1, h2, h3]
    | dir name ch =>
      have hszch : sizeOf ch ≤ n := by
        simp at ht
        omega
      rw [childLines_dir, treeVisible_dir_eq]
      by_cases h1 : strStartsWith name "." = true
      · simp [h1]
      · by_cases h2 : gitSkips s (cur ++ [name]) true = true
        · simp [h1, h2]
        · have hgen : generate_structure s (cur ++ [name]) (depth + 1) ch = [] ↔
              ∀ c ∈ ch, treeVisible s (cur ++ [name]) c = false := by
            rw [generate_structure, List.flatMap_eq_nil_iff]
            constructor
            · intro h c hc
              have hsz : sizeOf c ≤ n := by
                have := List.sizeOf_lt_of_mem hc
                omega
              exact (ih c hsz (cur ++ [name]) (depth + 1)).mp
                (h c ((List.Perm.mem_iff (List.perm_insertionSort treeNameLe ch)).mpr hc))
            · intro h c hc2
              have hc : c ∈ ch :=
                (List.Perm.mem_iff (List.perm_insertionSort treeNameLe ch)).mp hc2
              have hsz : sizeOf c ≤ n := by
                have := List.sizeOf_lt_of_mem hc
                omega
              exact (ih c hsz (cur ++ [name]) (depth + 1)).mpr (h c hc)
          by_cases hg : generate_structure s (cur ++ [name]) (depth + 1) ch = []
          · simp [h1, h2, hg, List.any_eq_false]
            exact hgen.mp hg
          · simp [h1, h2, hg, List.any_eq_false]
            have hex : ¬∀ c ∈ ch, treeVisible s (cur ++ [name]) c = false :=
              fun hall => hg (hgen.mpr hall)
            push_neg at hex
            obtain ⟨c, hc, hvc⟩ := hex
            exact ⟨c, hc, Bool.ne_false_iff.mp hvc⟩

/-- C5: an entry produces no output lines exactly when nothing below it
survives filtering — in particular a directory whose recursive filtered
listing is empty leaves no heading and no trace at any depth (nested empty
parents of empty children included), and a directory line is printed
exactly when its recursive rendering is non-empty. -/
theorem c5_empty_pruned (s : CodeScanner) :
    (∀ (cur : List String) (depth : Nat) (t : FSTree),
      childLines s cur depth t = [] ↔ treeVisible s cur t = false) ∧
    (∀ (cur : List String) (depth : Nat) (children : List FSTree),
      generate_structure s cur depth children = [] ↔
        ∀ t ∈ children, treeVisible s cur t = false) := by
  have main : ∀ (cur : List String) (depth : Nat) (t : FSTree),
      childLines s cur depth t = [] ↔ treeVisible s cur t = false :=
    fun cur depth t => childLines_eq_nil_iff s (sizeOf t) t le_rfl cur depth
  refine ⟨main, ?_⟩
  intro cur depth children
  rw [generate_structure, List.flatMap_eq_nil_iff]
  constructor
  · intro h t htc
    exact (main cur depth t).mp
      (h t ((List.Perm.mem_iff (List.perm_insertionSort treeNameLe children)).mpr htc))
  · intro h t htc
    exact (main cur depth t).mpr
      (h t ((List.Perm.mem_iff (List.perm_insertionSort treeNameLe children)).mp htc))

/-- C4: a file in the enumeration that passes the whole filter policy
(allowed extension, no exclude substring, no exclude suffix, no ignore
rule — i.e. `should_include_file` accepts it) and is readable appears in
the aggregated output exactly once, and the block carries the on-disk
content unchanged; duplicate-free enumeration paths lying under the scan
root model a real directory walk. -/
theorem c4_roundtrip (s : CodeScanner) (readF : List String → Option String)
    (dirp : List String) (files : List Entry) (e : Entry) (content : String)
    (hmem : e ∈ files) (hfile : e.isFile = true)
    (hinc : should_include_file s e.path = true)
    (hread : readF e.path = some content)
    (hnd : (files.map Entry.path).Nodup)
    (hund : ∀ f ∈ files, dirp.isPrefixOf f.path = true) :
    (scanBlocks s readF dirp files).count
      ⟨relTo e.path dirp, lstripDots (pySuffix (lastName e.path)), content⟩ = 1 :=
  scanBlocks_count s readF dirp files e content hmem hfile hinc hread hnd hund

/-- C4 witness. -/
theorem c4_roundtrip_witness :
    (scanBlocks wScanner wRead ["r"] [wEntryB, wEntryA]).count
      ⟨relTo wEntryA.path ["r"], lstripDots (pySuffix (lastName wEntryA.path)), "x=1"⟩ = 1 :=
  c4_roundtrip wScanner wRead ["r"] [wEntryB, wEntryA] wEntryA "x=1"
    (by decide) (by decide) (by decide) (by decide) (by decide) (by decide)

/-- C6: the candidate list is sorted by the full path string, and both it
and the emitted block sequence are invariant under permutation of the
filesystem enumeration (entries having pairwise distinct path strings, as
on a real filesystem). -/
theorem c6_sorted_deterministic (s : CodeScanner) (files1 files2 : List Entry)
    (hperm : files1.Perm files2)
    (hnd : (files1.map fun e => pathStr e.path).Nodup) :
    List.Sorted entryLe (codeFiles s files1) ∧
    codeFiles s files1 = codeFiles s files2 ∧
    (∀ readF dirp, scanBlocks s readF dirp files1 = scanBlocks s readF dirp files2) := by
  have hs1 : List.Sorted entryLe (codeFiles s files1) :=
    List.sorted_insertionSort entryLe _
  have hs2 : List.Sorted entryLe (codeFiles s files2) :=
    List.sorted_insertionSort entryLe _
  have hkey1 : (codeFiles s files1).Pairwise
      fun a b => pathStr a.path ≠ pathStr b.path := by
    have h1 : files1.Pairwise (fun a b => pathStr a.path ≠ pathStr b.path) :=
      List.pairwise_map.mp hnd
    have h2 : (files1.filter fun e => e.isFile && should_include_file s e.path).Pairwise
        fun a b => pathStr a.path ≠ pathStr b.path :=
      h1.sublist (List.filter_sublist files1)
    exact ((List.perm_insertionSort entryLe _).pairwise_iff
      fun hab => Ne.symm hab).mpr h2
  have heq : codeFiles s files1 = codeFiles s files2 := by
    have hp : (codeFiles s files1).Perm (codeFiles s files2) :=
      ((List.perm_insertionSort entryLe _).trans
        (hperm.filter _)).trans (List.perm_insertionSort entryLe _).symm
    have hkey2 : (codeFiles s files2).Pairwise
        fun a b => pathStr a.path ≠ pathStr b.path :=
      (hp.pairwise_iff fun hab => Ne.symm hab).mp hkey1
    haveI : IsAntisymm Entry fun a b => entryLe a b ∧ pathStr a.path ≠ pathStr b.path :=
      ⟨fun _ _ h1 h2 => absurd (le_antisymm h1.1 h2.1) h1.2⟩
    exact List.eq_of_perm_of_sorted hp (hs1.and hkey1) (hs2.and hkey2)
  exact ⟨hs1, heq, fun readF dirp => by simp only [scanBlocks, heq]⟩

/-- C6 witness: the same two files fed in swapped order. -/
theorem c6_sorted_deterministic_witness :
    List.Sorted entryLe (codeFiles wScanner [wEntryB, wEntryA]) ∧
    codeFiles wScanner [wEntryB, wEntryA] = codeFiles wScanner [wEntryA, wEntryB] ∧
    (∀ readF dirp, scanBlocks wScanner readF dirp [wEntryB, wEntryA] =
      scanBlocks wScanner readF dirp [wEntryA, wEntryB]) :=
  c6_sorted_deterministic wScanner [wEntryB, wEntryA] [wEntryA, wEntryB]
    (List.Perm.swap wEntryA wEntryB []) (by decide)

/-- C7: the tree walker skips every entry whose name starts with a dot,
whatever the rest of the configuration, while the content walker applies
only the filter policy: a hidden file passing `should_include_file`
appears among the emitted blocks. -/
theorem c7_hidden_asymmetry :
    (∀ (s : CodeScanner) (cur : List String) (depth : Nat) (name : String),
      strStartsWith name "." = true →
      (∀ content, childLines s cur depth (.file name content) = []) ∧
      (∀ ch, childLines s cur depth (.dir name ch) = [])) ∧
    (∀ (s : CodeScanner) (readF : List String → Option String)
      (dirp : List String) (files : List Entry) (e : Entry) (content : String),
      strStartsWith (lastName e.path) "." = true →
      e ∈ files → e.isFile = true → should_include_file s e.path = true →
      readF e.path = some content → (files.map Entry.path).Nodup →
      (∀ f ∈ files, dirp.isPrefixOf f.path = true) →
      (⟨relTo e.path dirp, lstripDots (pySuffix (lastName e.path)), content⟩ : Block) ∈
        scanBlocks s readF dirp files) := by
  constructor
  · intro s cur depth name h
    exact ⟨fun content => by simp [childLines, h], fun ch => by simp [childLines, h]⟩
  · intro s readF dirp files e content hhid hmem hfile hinc hread hnd hund
    have h1 := scanBlocks_count s readF dirp files e content hmem hfile hinc hread hnd hund
    have h2 : 0 < (scanBlocks s readF dirp files).count
        (⟨relTo e.path dirp, lstripDots (pySuffix (lastName e.path)), content⟩ : Block) := by
      omega
    exact List.count_pos_iff.mp h2

/-- C7 witness: a hidden file `.hid.py` passing the policy. -/
theorem c7_hidden_asymmetry_witness :
    childLines wScanner ["r"] 0 (.file ".hid.py" "h") = [] ∧
    (⟨relTo wEntryH.path ["r"], lstripDots (pySuffix (lastName wEntryH.path)), "h"⟩ : Block) ∈
      scanBlocks wScanner wRead ["r"] [wEntryH, wEntryA] :=
  ⟨(c7_hidden_asymmetry.1 wScanner ["r"] 0 ".hid.py" (by decide)).1 "h",
   c7_hidden_asymmetry.2 wScanner wRead ["r"] [wEntryH, wEntryA] wEntryH "h"
     (by decide) (by decide) (by decide) (by decide) (by decide) (by decide) (by decide)⟩

theorem matchPath_eq_false_iff (rules : List Rule) (p : List String) (d : Bool) :
    matchPath rules p d = false ↔
      ∀ k, k < p.length →
        (lastVerdict rules (p.take (k + 1))
          (if k + 1 = p.length then d else true)).getD false = false := by
  simp [matchPath, List.any_eq_false, List.mem_range]

theorem matchPath_take_eq_false_iff (rules : List Rule) (p : List String) (k : Nat)
    (hk : k ≤ p.length) :
    matchPath rules (p.take k) true = false ↔
      ∀ j, j < k → (lastVerdict rules (p.take (j + 1)) true).getD false = false := by
  have hlen : (p.take k).length = k := by rw [List.length_take]; omega
  rw [matchPath_eq_false_iff]
  simp only [hlen, List.take_take, ite_self]
  constructor
  · intro h j hj
    have h2 := h j hj
    rwa [show min (j + 1) k = j + 1 by omega] at h2
  · intro h j hj
    rw [show min (j + 1) k = j + 1 by omega]
    exact h j hj

/-- C1: when the last rule matching a file is a negation (it was excluded
by an earlier rule and re-included by a later `!` rule), the matcher
excludes the file iff some ancestor directory is itself excluded by the
rule set; in the scenario `*.py`, `!important.py`, `sub/`, the top-level
`important.py` is included while `sub/important.py` stays excluded. -/
theorem c1_negation_ancestors :
    (∀ (rules : List Rule) (p : List String),
      lastVerdict rules p false = some false →
        (matchPath rules p false = false ↔
          ∀ k, 0 < k → k < p.length → matchPath rules (p.take k) true = false)) ∧
    matchPath c1Rules ["important.py"] false = false ∧
    matchPath c1Rules ["sub", "important.py"] false = true := by
  refine ⟨?_, by decide, by decide⟩
  intro rules p hlast
  rw [matchPath_eq_false_iff]
  constructor
  · intro h k hk0 hkn
    rw [matchPath_take_eq_false_iff rules p k (le_of_lt hkn)]
    intro j hj
    have h2 := h j (by omega)
    rwa [if_neg (by omega : ¬j + 1 = p.length)] at h2
  · intro h k hkn
    by_cases hke : k + 1 = p.length
    · rw [if_pos hke, hke, List.take_length, hlast]
      rfl
    · rw [if_neg hke]
      have h2 := (matchPath_take_eq_false_iff rules p (k + 1) (by omega)).mp
        (h (k + 1) (by omega) (by omega))
      exact h2 k (by omega)

/-- C1 witness. -/
theorem c1_negation_ancestors_witness :
    matchPath c1Rules ["sub", "important.py"] false = false ↔
      (∀ k, 0 < k → k < (["sub", "important.py"] : List String).length →
        matchPath c1Rules ((["sub", "important.py"] : List String).take k) true = false) :=
  c1_negation_ancestors.1 c1Rules ["sub", "important.py"] (by decide)

/-- C9 witness. -/
theorem c9_extensionless_witness :
    should_include_file wScanner ["r", "Makefile"] = false ∧
    (∀ files : List Entry, ∀ e ∈ codeFiles wScanner files, e.path ≠ ["r", "Makefile"]) ∧
    (∀ cur depth (name content : String), '.' ∉ name.data →
       childLines wScanner cur depth (.file name content) = []) ∧
    "" ∉ defaultExtensions :=
  c9_extensionless wScanner ["r", "Makefile"] (by decide) (by decide)

end Codemd
